import Mathlib

/-!
Shallow embedding of the moize cache-management core, translated from
`src/src/utils.js` and `src/unnamed/part_000` (the instance module exporting
`addInstanceMethods`, `addInstanceProperties`, `augmentMoizeInstance`),
together with theorems settling the frozen claims about the spec.

Modelling conventions:
* JavaScript primitive values that appear in keys and cached values are
  modelled by the inductive `JSVal` (`undef` for `undefined`, strings,
  integers).
* A JavaScript array object used as a key is modelled by `KeyObj`: a `ref`
  field standing for the object's reference identity (`===` on two arrays is
  true exactly when their `ref`s coincide, distinct array objects carrying
  distinct `ref`s) and a `content` field holding the elements.
* Functions passed around as values (lifecycle callbacks, `transformArgs`)
  are modelled by the inductives `CombFn` / `CompFn`: leaves are atomic
  user-supplied callbacks, `wrap` nodes are the closures that `combine` /
  `compose` build.  A JavaScript value that may or may not be a function is
  `JsV F`.
* Calling a lifecycle callback is observable only through its side effects,
  so `runC` denotes a `CombFn` as a trace of (callback id, arguments) calls;
  `runK` denotes a `CompFn` as the value-level function it computes.
* The instance methods mutate `moized.cache` in place and invoke
  `onCacheAdd` / `onCacheChange`; the embedding passes the state explicitly
  and returns the list of callback invocations (each carrying the cache
  object handed to the callback, the options object and the facade
  reference) in invocation order.  A JavaScript method with no `return`
  statement yields `undefined`; where a claim is about a return value the
  embedding carries it as an `Option Bool` (`none` = `undefined`).
-/

/-- JavaScript primitive values appearing in keys and cached values. -/
inductive JSVal where
  | undef : JSVal
  | str : String → JSVal
  | num : Int → JSVal
deriving DecidableEq, Repr

/-- A JavaScript array object used as a key: `ref` models reference identity
(`===`), `content` the elements. -/
structure KeyObj where
  ref : Nat
  content : List JSVal
deriving DecidableEq, Repr

/-- An expiration record from `src/src/types` as consumed by
`findExpirationIndex`: the key array object it was armed for and the host
timer handle. -/
structure Expiration where
  key : KeyObj
  timeoutId : Nat
deriving DecidableEq, Repr

/-- Loop of `findExpirationIndex` (src/src/utils.js lines 86-94): scan the
expirations left to right comparing `expirations[index].key === key`, which
on array objects is reference identity. -/
def findExpirationLoop (key : KeyObj) : List Expiration → Nat → Int
  | [], _ => -1
  | e :: rest, i => if e.key.ref == key.ref then (i : Int) else findExpirationLoop key rest (i + 1)

/-- Embedding of `findExpirationIndex` (src/src/utils.js lines 86-94).  Note
the comparison is `===` on the key array itself; the configured `isEqual` /
`isMatchingKey` functions are not in its signature at all. -/
def findExpirationIndex (expirations : List Expiration) (key : KeyObj) : Int :=
  findExpirationLoop key expirations 0

/-- Generic first-index search used to state characterisations: index of the
first element satisfying `p`, and `-1` when none does. -/
def firstIdxFrom (p : α → Bool) : List α → Nat → Int
  | [], _ => -1
  | a :: rest, i => if p a then (i : Int) else firstIdxFrom p rest (i + 1)

/-- Default element-wise key comparison built by `createFindKeyIndex`
(src/src/utils.js lines 100-108) when no `isMatchingKey` is supplied: walk
the indices of the candidate `key` and require `isEqual` on each pair
(an out-of-range access on `cacheKey` yields `undefined`). -/
def areKeysEqualDefault (isEqual : JSVal → JSVal → Bool) (cacheKey key : List JSVal) : Bool :=
  (List.range key.length).all fun i => isEqual (cacheKey.getD i JSVal.undef) (key.getD i JSVal.undef)

/-- Loop of the returned `findKeyIndex` (src/src/utils.js lines 122-132):
for each stored key, first compare lengths, then apply `areKeysEqual`;
return the first index that passes both, else `-1`. -/
def findKeyLoop (areKeysEqual : List JSVal → List JSVal → Bool) :
    List (List JSVal) → List JSVal → Nat → Int
  | [], _, _ => -1
  | k :: rest, key, i =>
    if k.length == key.length && areKeysEqual k key then (i : Int)
    else findKeyLoop areKeysEqual rest key (i + 1)

/-- Embedding of `createFindKeyIndex` (src/src/utils.js lines 96-133):
`areKeysEqual` is the custom `isMatchingKey` when one is supplied, otherwise
the default element-wise comparison; the produced function scans the cache
keys with `findKeyLoop`. -/
def createFindKeyIndex (isEqual : JSVal → JSVal → Bool)
    (isMatchingKey : Option (List JSVal → List JSVal → Bool))
    (keys : List (List JSVal)) (key : List JSVal) : Int :=
  let areKeysEqual := match isMatchingKey with
    | some m => m
    | none => areKeysEqualDefault isEqual
  findKeyLoop areKeysEqual keys key 0

/-- A JavaScript value that is either `undefined`, a non-function value, or
a function of shape `F`; this is the argument/return type of `combine` and
`compose`, whose branches test `typeof x === 'function'`. -/
inductive JsV (F : Type) where
  | undef : JsV F
  | nonFn : Nat → JsV F
  | fn : F → JsV F
deriving DecidableEq, Repr

/-- Whether the value is a function (`typeof x === 'function'`). -/
def JsV.isFn : JsV F → Bool
  | .fn _ => true
  | _ => false

/-- Function values handled by `combine`: `atom` is a user-supplied callback
(identified by an id), `wrap g f` is the closure `combine` builds in
src/src/utils.js lines 30-35, which calls `g` then `f` on the same
arguments. -/
inductive CombFn where
  | atom : Nat → CombFn
  | wrap : CombFn → CombFn → CombFn
deriving DecidableEq, Repr

/-- Trace semantics of a `CombFn`: the sequence of (callback id, arguments)
invocations performed when calling it. -/
def runC : CombFn → List Nat → List (Nat × List Nat)
  | .atom id, a => [(id, a)]
  | .wrap g f, a => runC g a ++ runC f a

/-- One step of the `reduce` inside `combine` (src/src/utils.js lines 27-39):
if both accumulator and next are functions build the wrapper that fires the
next (`g`) before the accumulator (`f`); if only one is a function keep it;
otherwise `undefined`. -/
def combineStep (f g : JsV CombFn) : JsV CombFn :=
  match f with
  | .fn ff =>
    match g with
    | .fn gg => .fn (.wrap gg ff)
    | _ => .fn ff
  | _ =>
    match g with
    | .fn gg => .fn gg
    | _ => JsV.undef

/-- Embedding of `combine` (src/src/utils.js lines 23-42): with no arguments
the function body falls through and returns `undefined`; otherwise JavaScript
`reduce` with no initial value folds `combineStep` over the tail starting
from the first argument. -/
def combine : List (JsV CombFn) → JsV CombFn
  | [] => JsV.undef
  | a :: rest => rest.foldl combineStep a

/-- Function values handled by `compose`: `atom` is a user-supplied transform
(carried semantically), `wrap f g` is the closure `compose` builds in
src/src/utils.js lines 62-65, returning `f(g(args))`. -/
inductive CompFn where
  | atom : (List Nat → List Nat) → CompFn
  | wrap : CompFn → CompFn → CompFn

/-- Value semantics of a `CompFn`: the list-to-list function it computes. -/
def runK : CompFn → List Nat → List Nat
  | .atom h, a => h a
  | .wrap f g, a => runK f (runK g a)

/-- One step of the `reduce` inside `compose` (src/src/utils.js lines 59-69):
if both are functions build the wrapper returning `f(g(args))`; if only one
is a function keep it; otherwise `undefined`. -/
def composeStep (f g : JsV CompFn) : JsV CompFn :=
  match f with
  | .fn ff =>
    match g with
    | .fn gg => .fn (.wrap ff gg)
    | _ => .fn ff
  | _ =>
    match g with
    | .fn gg => .fn gg
    | _ => JsV.undef

/-- Embedding of `compose` (src/src/utils.js lines 55-72), structured exactly
like `combine` but with the value-returning wrapper. -/
def compose : List (JsV CompFn) → JsV CompFn
  | [] => JsV.undef
  | a :: rest => rest.foldl composeStep a

/-- The moize options fields consumed by `mergeOptions`
(src/src/utils.js lines 160-175): the three lifecycle callbacks merged with
`combine` and the key transform merged with `compose`.  The other fields are
copied by `Object.assign` and are not involved in the merge claims. -/
structure MOptions where
  onCacheAdd : JsV CombFn
  onCacheChange : JsV CombFn
  onCacheHit : JsV CombFn
  transformArgs : JsV CompFn

/-- Embedding of `mergeOptions` (src/src/utils.js lines 160-175).  The guard
`newOptions === DEFAULT_OPTIONS` is a reference-identity test on the options
object, modelled by the `newIsDefaultOptions` flag; otherwise the callback
fields are combined and `transformArgs` composed, original first, new
second. -/
def mergeOptions (originalOptions newOptions : MOptions) (newIsDefaultOptions : Bool) :
    MOptions :=
  if newIsDefaultOptions then originalOptions
  else
    { onCacheAdd := combine [originalOptions.onCacheAdd, newOptions.onCacheAdd]
      onCacheChange := combine [originalOptions.onCacheChange, newOptions.onCacheChange]
      onCacheHit := combine [originalOptions.onCacheHit, newOptions.onCacheHit]
      transformArgs := compose [originalOptions.transformArgs, newOptions.transformArgs] }

/-- The `moized.options` fields read by the instance methods of
`addInstanceMethods` (src/unnamed/part_000 lines 25-46): `isEqual` and
`isMatchingKey` feed `createFindKeyIndex`, `maxSize` bounds the cache
(`undefined` when unset, modelled by `none`), `transformKey` optionally
rewrites the key before use. -/
structure Options where
  isEqual : JSVal → JSVal → Bool
  isMatchingKey : Option (List JSVal → List JSVal → Bool) := none
  maxSize : Option Nat := none
  transformKey : Option (List JSVal → List JSVal) := none

/-- The micro-memoize cache object consumed by the instance methods: an
ordered key sequence and an ordered value sequence, most recently used
first. -/
structure Cache where
  keys : List (List JSVal)
  values : List JSVal

/-- The cache `size` property: the number of stored keys. -/
def Cache.size (c : Cache) : Nat := c.keys.length

/-- The mutable state the instance methods act on: the cache plus the
`expirations` list the configuration carries for armed expiration timers. -/
structure MoizedState where
  cache : Cache
  expirations : List Expiration

/-- One lifecycle-callback invocation by an instance method, recording which
callback fired and the three arguments it received: the cache object at
invocation time, the options object and the moized facade (as a
reference). -/
inductive Event where
  | cacheAdd : Cache → Options → Nat → Event
  | cacheChange : Cache → Options → Nat → Event

/-- Key preprocessing shared by the instance methods
(src/unnamed/part_000 lines 32, 54, 64, 70): `transformKey ?
transformKey(key) : key`. -/
def savedKeyOf (opts : Options) (key : List JSVal) : List JSVal :=
  match opts.transformKey with
  | some t => t key
  | none => key

/-- The eviction guard of `add` (src/unnamed/part_000 line 35):
`moized.cache.size >= moized.options.maxSize`.  When `maxSize` is unset the
JavaScript comparison with `undefined` is false. -/
def atCapacity (opts : Options) (c : Cache) : Bool :=
  match opts.maxSize with
  | some ms => c.size ≥ ms
  | none => false

/-- Result of the `add` instance method: the state after the call, the
lifecycle callbacks fired (in order), and the JavaScript return value
(`none` models `undefined`; the method body has no `return` statement). -/
structure AddResult where
  state : MoizedState
  events : List Event
  ret : Option Bool

/-- Embedding of the `add` instance method (src/unnamed/part_000 lines
31-46): transform the key; if `findKeyIndex` misses (`!~idx`), pop the last
key/value pair when at capacity, unshift the new pair, then fire
`onCacheAdd` and `onCacheChange` with the mutated cache; otherwise do
nothing.  The `expirations` list is never consulted. -/
def Moized.add (opts : Options) (selfRef : Nat) (m : MoizedState)
    (key : List JSVal) (value : JSVal) : AddResult :=
  let savedKey := savedKeyOf opts key
  if createFindKeyIndex opts.isEqual opts.isMatchingKey m.cache.keys savedKey = -1 then
    let afterEvict : Cache :=
      if atCapacity opts m.cache then
        { keys := m.cache.keys.dropLast, values := m.cache.values.dropLast }
      else m.cache
    let newCache : Cache :=
      { keys := savedKey :: afterEvict.keys, values := value :: afterEvict.values }
    { state := { m with cache := newCache }
      events := [Event.cacheAdd newCache opts selfRef, Event.cacheChange newCache opts selfRef]
      ret := none }
  else { state := m, events := [], ret := none }

/-- Embedding of the `clear` instance method (src/unnamed/part_000 lines
47-52): truncate both sequences and fire `onCacheChange`. -/
def Moized.clear (opts : Options) (selfRef : Nat) (m : MoizedState) :
    MoizedState × List Event :=
  let newCache : Cache := { keys := [], values := [] }
  ({ m with cache := newCache }, [Event.cacheChange newCache opts selfRef])

/-- Embedding of the `remove` instance method (src/unnamed/part_000 lines
69-78): transform the key; if `findKeyIndex` hits (`~idx`), splice the entry
out of both sequences and fire `onCacheChange`; otherwise do nothing.  The
`expirations` list is never touched and no timer is cleared. -/
def Moized.remove (opts : Options) (selfRef : Nat) (m : MoizedState)
    (key : List JSVal) : MoizedState × List Event :=
  let keyIndex := createFindKeyIndex opts.isEqual opts.isMatchingKey m.cache.keys
    (savedKeyOf opts key)
  if keyIndex = -1 then (m, [])
  else
    let n := keyIndex.toNat
    let newCache : Cache :=
      { keys := m.cache.keys.eraseIdx n, values := m.cache.values.eraseIdx n }
    ({ m with cache := newCache }, [Event.cacheChange newCache opts selfRef])

/-- Embedding of the `has` instance method (src/unnamed/part_000 lines
63-65): `!!~findKeyIndex(...)`. -/
def Moized.has (opts : Options) (m : MoizedState) (key : List JSVal) : Bool :=
  createFindKeyIndex opts.isEqual opts.isMatchingKey m.cache.keys (savedKeyOf opts key) ≠ -1

/-- Modelled from the spec: the `update(key, newValue)` instance method is
absent from `addInstanceMethods` in src/unnamed/part_000 (only
test/instance.js lines 630-699 exercise it).  Per the spec, `update` locates
the entry via the Key Matcher; if found it moves that entry to the front of
the ordering, overwrites its value, and signals a change (firing
`onCacheChange` once); it is a no-op otherwise and does not alter
expiration. -/
def Moized.update (opts : Options) (selfRef : Nat) (m : MoizedState)
    (key : List JSVal) (newValue : JSVal) : MoizedState × List Event :=
  let keyIndex := createFindKeyIndex opts.isEqual opts.isMatchingKey m.cache.keys
    (savedKeyOf opts key)
  if keyIndex = -1 then (m, [])
  else
    let n := keyIndex.toNat
    let newCache : Cache :=
      { keys := m.cache.keys.getD n [] :: m.cache.keys.eraseIdx n
        values := newValue :: m.cache.values.eraseIdx n }
    ({ m with cache := newCache }, [Event.cacheChange newCache opts selfRef])

/-- Folding a sequence of `add` calls over the state, ignoring the fired
callbacks and return values. -/
def Moized.addAll (opts : Options) (selfRef : Nat) (m : MoizedState)
    (pairs : List (List JSVal × JSVal)) : MoizedState :=
  pairs.foldl (fun s p => (Moized.add opts selfRef s p.1 p.2).state) m

/-- The failure of the stored-key lookup for one stored key: either the
length test or `areKeysEqual` rejects.  `findKeyIndex` returns `-1` exactly
when this holds of every stored key. -/
def keyMisses (opts : Options) (storedKey cand : List JSVal) : Prop :=
  ¬(storedKey.length = cand.length ∧
    (match opts.isMatchingKey with
     | some mk => mk storedKey cand
     | none => areKeysEqualDefault opts.isEqual storedKey cand) = true)

instance (opts : Options) (a b : List JSVal) : Decidable (keyMisses opts a b) := by
  unfold keyMisses
  exact inferInstance

/-- Strict equality `===` on primitive values, the default `isEqual`. -/
def strictEqual : JSVal → JSVal → Bool := fun a b => a == b

/-- Concrete options with the default element-wise matcher and no bound,
used to instantiate the hypothesised theorems. -/
def sampleOptions : Options := { isEqual := strictEqual }

/-- Concrete options with the default matcher and a size bound. -/
def boundedOptions (ms : Nat) : Options := { isEqual := strictEqual, maxSize := some ms }

/-- A concrete one-entry state holding key `["a"]` with an armed expiration
record for that entry, used to exercise eviction. -/
def evictSample : MoizedState :=
  { cache := { keys := [[JSVal.str "a"]], values := [JSVal.str "x"] }
    expirations := [{ key := { ref := 5, content := [JSVal.str "a"] }, timeoutId := 7 }] }

/-- Concrete original options supplying all four mergeable functions. -/
def origSampleMOptions : MOptions :=
  { onCacheAdd := JsV.fn (CombFn.atom 0)
    onCacheChange := JsV.fn (CombFn.atom 1)
    onCacheHit := JsV.fn (CombFn.atom 2)
    transformArgs := JsV.fn (CompFn.atom fun l => 0 :: l) }

/-- Concrete new options supplying all four mergeable functions. -/
def newSampleMOptions : MOptions :=
  { onCacheAdd := JsV.fn (CombFn.atom 3)
    onCacheChange := JsV.fn (CombFn.atom 4)
    onCacheHit := JsV.fn (CombFn.atom 5)
    transformArgs := JsV.fn (CompFn.atom fun l => 1 :: l) }

-- Theorems ------------------------------------------------------------------

theorem findKeyLoop_eq_firstIdxFrom (eqk : List JSVal → List JSVal → Bool)
    (keys : List (List JSVal)) (key : List JSVal) (i : Nat) :
    findKeyLoop eqk keys key i =
      firstIdxFrom (fun k => k.length == key.length && eqk k key) keys i := by
  induction keys generalizing i with
  | nil => rfl
  | cons k rest ih => simp [findKeyLoop, firstIdxFrom, ih]

theorem findKeyLoop_eq_neg_one_iff (eqk : List JSVal → List JSVal → Bool)
    (keys : List (List JSVal)) (key : List JSVal) (i : Nat) :
    findKeyLoop eqk keys key i = -1 ↔
      ∀ k ∈ keys, ¬(k.length = key.length ∧ eqk k key = true) := by
  induction keys generalizing i with
  | nil => simp [findKeyLoop]
  | cons k rest ih =>
    by_cases h : (k.length == key.length && eqk k key) = true
    · have hk : k.length = key.length ∧ eqk k key = true := by
        simpa [Bool.and_eq_true, beq_iff_eq] using h
      simp only [findKeyLoop, h, if_true]
      constructor
      · intro habs; exact absurd habs (by omega)
      · intro hall; exact absurd hk (hall k (List.mem_cons_self k rest))
    · have hk : ¬(k.length = key.length ∧ eqk k key = true) := by
        simpa [Bool.and_eq_true, beq_iff_eq] using h
      have hstep : findKeyLoop eqk (k :: rest) key i = findKeyLoop eqk rest key (i + 1) := by
        simp [findKeyLoop, h]
      rw [hstep, ih]
      constructor
      · intro hall k' hk'
        rcases List.mem_cons.mp hk' with rfl | hmem
        · exact hk
        · exact hall k' hmem
      · intro hall k' hk'
        exact hall k' (List.mem_cons_of_mem k hk')

theorem createFindKeyIndex_eq_neg_one_iff (opts : Options) (keys : List (List JSVal))
    (key : List JSVal) :
    createFindKeyIndex opts.isEqual opts.isMatchingKey keys key = -1 ↔
      ∀ k ∈ keys, keyMisses opts k key := by
  unfold createFindKeyIndex keyMisses
  cases opts.isMatchingKey with
  | none => simpa using findKeyLoop_eq_neg_one_iff (areKeysEqualDefault opts.isEqual) keys key 0
  | some mk => simpa using findKeyLoop_eq_neg_one_iff mk keys key 0

theorem findExpirationLoop_eq_firstIdxFrom (key : KeyObj) (expirations : List Expiration)
    (i : Nat) :
    findExpirationLoop key expirations i =
      firstIdxFrom (fun e => e.key.ref == key.ref) expirations i := by
  induction expirations generalizing i with
  | nil => rfl
  | cons e rest ih => simp [findExpirationLoop, firstIdxFrom, ih]

theorem firstIdxFrom_eq_neg_one_iff (p : α → Bool) (l : List α) (i : Nat) :
    firstIdxFrom p l i = -1 ↔ ∀ a ∈ l, p a = false := by
  induction l generalizing i with
  | nil => simp [firstIdxFrom]
  | cons a rest ih =>
    by_cases h : p a = true
    · simp only [firstIdxFrom, h, if_true]
      constructor
      · intro habs; exact absurd habs (by omega)
      · intro hall; simp [hall a (List.mem_cons_self a rest)] at h
    · simp [firstIdxFrom, h, ih, Bool.eq_false_iff.mpr h]

/-- Claim C10: `findExpirationIndex` matches an expiration record only by
reference identity of the key object: it returns the index of the first
record whose stored key is the very same object as the query key, and `-1`
otherwise; its signature never involves the configured equality or matcher
functions, so a structurally equal but distinct key object never locates an
expiration. -/
theorem claim_C10_findExpirationIndex_ref_identity :
    (∀ (expirations : List Expiration) (key : KeyObj),
      findExpirationIndex expirations key =
        firstIdxFrom (fun e => e.key.ref == key.ref) expirations 0)
    ∧ (∀ (expirations : List Expiration) (key : KeyObj),
      (∀ e ∈ expirations, e.key.ref ≠ key.ref) → findExpirationIndex expirations key = -1) := by
  constructor
  · intro expirations key
    exact findExpirationLoop_eq_firstIdxFrom key expirations 0
  · intro expirations key h
    rw [findExpirationIndex, findExpirationLoop_eq_firstIdxFrom,
      firstIdxFrom_eq_neg_one_iff]
    intro e he
    simpa using h e he

/-- Witness for C10 at a concrete input: a query key whose content equals a
stored expiration key's content but whose reference differs never locates
the record. -/
theorem claim_C10_witness :
    KeyObj.content { ref := 0, content := [JSVal.str "key"] } =
      KeyObj.content { ref := 1, content := [JSVal.str "key"] } ∧
    findExpirationIndex [{ key := { ref := 0, content := [JSVal.str "key"] }, timeoutId := 42 }]
      { ref := 1, content := [JSVal.str "key"] } = -1 :=
  ⟨rfl, claim_C10_findExpirationIndex_ref_identity.2 _ _ (by decide)⟩


/-- Counterexample to claim C5 as stated: with a custom matcher that accepts
every pair, a stored key of length 2 is never tried against a candidate of
length 1 — `findKeyIndex` returns `-1`, not the index 0 the claim demands,
because the length comparison guards the matcher call
(src/src/utils.js line 124). -/
theorem claim_C5_counterexample :
    createFindKeyIndex strictEqual (some fun _ _ => true)
      [[JSVal.num 1, JSVal.num 2]] [JSVal.num 1] = -1 ∧ (-1 : Int) ≠ 0 := by
  constructor
  · rfl
  · decide

/-- Claim C5 as amended: when a custom matcher is configured, `findKeyIndex`
delegates to it only for stored keys whose length equals the candidate's;
it returns the index of the first stored key passing both the length test
and the matcher, and `-1` when none does. -/
theorem claim_C5_custom_matcher (isEqual : JSVal → JSVal → Bool)
    (matcher : List JSVal → List JSVal → Bool)
    (keys : List (List JSVal)) (key : List JSVal) :
    createFindKeyIndex isEqual (some matcher) keys key =
      firstIdxFrom (fun storedKey => storedKey.length == key.length && matcher storedKey key)
        keys 0 := by
  unfold createFindKeyIndex
  exact findKeyLoop_eq_firstIdxFrom matcher keys key 0

theorem foldl_combineStep_keep_fn (f : CombFn) (l : List (JsV CombFn))
    (h : ∀ x ∈ l, x.isFn = false) : l.foldl combineStep (JsV.fn f) = JsV.fn f := by
  induction l with
  | nil => rfl
  | cons a rest ih =>
    have ha : a.isFn = false := h a (List.mem_cons_self a rest)
    have hstep : combineStep (JsV.fn f) a = JsV.fn f := by
      cases a <;> simp_all [combineStep, JsV.isFn]
    rw [List.foldl_cons, hstep]
    exact ih fun x hx => h x (List.mem_cons_of_mem a hx)

theorem combineStep_not_fn {a b : JsV CombFn} (ha : a.isFn = false) (hb : b.isFn = false) :
    combineStep a b = JsV.undef := by
  cases a <;> cases b <;> simp_all [combineStep, JsV.isFn]

theorem foldl_combineStep_undef (l : List (JsV CombFn)) (h : ∀ x ∈ l, x.isFn = false) :
    l.foldl combineStep JsV.undef = JsV.undef := by
  induction l with
  | nil => rfl
  | cons a rest ih =>
    rw [List.foldl_cons, combineStep_not_fn (rfl : JsV.isFn (JsV.undef : JsV CombFn) = false) (h a (List.mem_cons_self a rest))]
    exact ih fun x hx => h x (List.mem_cons_of_mem a hx)

theorem foldl_combineStep_not_fn (l : List (JsV CombFn)) (a : JsV CombFn)
    (ha : a.isFn = false) (h : ∀ x ∈ l, x.isFn = false) :
    (l.foldl combineStep a).isFn = false := by
  induction l generalizing a with
  | nil => exact ha
  | cons b rest ih =>
    rw [List.foldl_cons, combineStep_not_fn ha (h b (List.mem_cons_self b rest))]
    exact ih JsV.undef rfl fun x hx => h x (List.mem_cons_of_mem b hx)

theorem foldl_composeStep_keep_fn (f : CompFn) (l : List (JsV CompFn))
    (h : ∀ x ∈ l, x.isFn = false) : l.foldl composeStep (JsV.fn f) = JsV.fn f := by
  induction l with
  | nil => rfl
  | cons a rest ih =>
    have ha : a.isFn = false := h a (List.mem_cons_self a rest)
    have hstep : composeStep (JsV.fn f) a = JsV.fn f := by
      cases a <;> simp_all [composeStep, JsV.isFn]
    rw [List.foldl_cons, hstep]
    exact ih fun x hx => h x (List.mem_cons_of_mem a hx)

theorem composeStep_not_fn {a b : JsV CompFn} (ha : a.isFn = false) (hb : b.isFn = false) :
    composeStep a b = JsV.undef := by
  cases a <;> cases b <;> simp_all [composeStep, JsV.isFn]

theorem foldl_composeStep_undef (l : List (JsV CompFn)) (h : ∀ x ∈ l, x.isFn = false) :
    l.foldl composeStep JsV.undef = JsV.undef := by
  induction l with
  | nil => rfl
  | cons a rest ih =>
    rw [List.foldl_cons, composeStep_not_fn (rfl : JsV.isFn (JsV.undef : JsV CompFn) = false) (h a (List.mem_cons_self a rest))]
    exact ih fun x hx => h x (List.mem_cons_of_mem a hx)

theorem foldl_composeStep_not_fn (l : List (JsV CompFn)) (a : JsV CompFn)
    (ha : a.isFn = false) (h : ∀ x ∈ l, x.isFn = false) :
    (l.foldl composeStep a).isFn = false := by
  induction l generalizing a with
  | nil => exact ha
  | cons b rest ih =>
    rw [List.foldl_cons, composeStep_not_fn ha (h b (List.mem_cons_self b rest))]
    exact ih JsV.undef rfl fun x hx => h x (List.mem_cons_of_mem b hx)

theorem combine_single_fn (l1 l2 : List (JsV CombFn)) (f : CombFn)
    (h1 : ∀ x ∈ l1, x.isFn = false) (h2 : ∀ x ∈ l2, x.isFn = false) :
    combine (l1 ++ JsV.fn f :: l2) = JsV.fn f := by
  cases l1 with
  | nil => exact foldl_combineStep_keep_fn f l2 h2
  | cons a rest =>
    have ha : a.isFn = false := h1 a (List.mem_cons_self a rest)
    have hrest : ∀ x ∈ rest, x.isFn = false := fun x hx => h1 x (List.mem_cons_of_mem a hx)
    show ((rest ++ JsV.fn f :: l2).foldl combineStep a) = JsV.fn f
    rw [List.foldl_append, List.foldl_cons]
    have hacc : (rest.foldl combineStep a).isFn = false :=
      foldl_combineStep_not_fn rest a ha hrest
    have hstep : combineStep (rest.foldl combineStep a) (JsV.fn f) = JsV.fn f := by
      cases hv : rest.foldl combineStep a <;> simp_all [combineStep, JsV.isFn]
    rw [hstep]
    exact foldl_combineStep_keep_fn f l2 h2

theorem compose_single_fn (l1 l2 : List (JsV CompFn)) (f : CompFn)
    (h1 : ∀ x ∈ l1, x.isFn = false) (h2 : ∀ x ∈ l2, x.isFn = false) :
    compose (l1 ++ JsV.fn f :: l2) = JsV.fn f := by
  cases l1 with
  | nil => exact foldl_composeStep_keep_fn f l2 h2
  | cons a rest =>
    have ha : a.isFn = false := h1 a (List.mem_cons_self a rest)
    have hrest : ∀ x ∈ rest, x.isFn = false := fun x hx => h1 x (List.mem_cons_of_mem a hx)
    show ((rest ++ JsV.fn f :: l2).foldl composeStep a) = JsV.fn f
    rw [List.foldl_append, List.foldl_cons]
    have hacc : (rest.foldl composeStep a).isFn = false :=
      foldl_composeStep_not_fn rest a ha hrest
    have hstep : composeStep (rest.foldl composeStep a) (JsV.fn f) = JsV.fn f := by
      cases hv : rest.foldl composeStep a <;> simp_all [composeStep, JsV.isFn]
    rw [hstep]
    exact foldl_composeStep_keep_fn f l2 h2

/-- Counterexample to claim C9 as stated: `combine` called with a single
non-function argument returns that argument, not `undefined` — JavaScript
`reduce` with no initial value returns the sole element without ever calling
the reducer. -/
theorem claim_C9_counterexample :
    combine [JsV.nonFn 42] = JsV.nonFn 42 ∧ combine [JsV.nonFn 42] ≠ JsV.undef := by
  constructor
  · rfl
  · decide

/-- Claim C9 as amended: `combine` (and likewise `compose`) returns
`undefined` when called with zero arguments or with two or more arguments
none of which is a function; a single argument — function or not — is
returned as itself; when exactly one function occurs among the arguments it
is returned unwrapped; consequently `mergeOptions` leaves a merged callback
field `undefined` when neither options object supplies it and uses a single
supplied callback unwrapped. -/
theorem claim_C9_single_function_unwrapped :
    combine ([] : List (JsV CombFn)) = JsV.undef
    ∧ compose ([] : List (JsV CompFn)) = JsV.undef
    ∧ (∀ x : JsV CombFn, combine [x] = x)
    ∧ (∀ y : JsV CompFn, compose [y] = y)
    ∧ (∀ l : List (JsV CombFn), 2 ≤ l.length → (∀ x ∈ l, x.isFn = false) →
        combine l = JsV.undef)
    ∧ (∀ l : List (JsV CompFn), 2 ≤ l.length → (∀ x ∈ l, x.isFn = false) →
        compose l = JsV.undef)
    ∧ (∀ (l1 l2 : List (JsV CombFn)) (f : CombFn), (∀ x ∈ l1, x.isFn = false) →
        (∀ x ∈ l2, x.isFn = false) → combine (l1 ++ JsV.fn f :: l2) = JsV.fn f)
    ∧ (∀ (l1 l2 : List (JsV CompFn)) (f : CompFn), (∀ x ∈ l1, x.isFn = false) →
        (∀ x ∈ l2, x.isFn = false) → compose (l1 ++ JsV.fn f :: l2) = JsV.fn f)
    ∧ (∀ originalOptions newOptions : MOptions,
        originalOptions.onCacheAdd = JsV.undef → newOptions.onCacheAdd = JsV.undef →
        (mergeOptions originalOptions newOptions false).onCacheAdd = JsV.undef)
    ∧ (∀ (originalOptions newOptions : MOptions) (f : CombFn),
        originalOptions.onCacheAdd = JsV.fn f → newOptions.onCacheAdd = JsV.undef →
        (mergeOptions originalOptions newOptions false).onCacheAdd = JsV.fn f)
    ∧ (∀ (originalOptions newOptions : MOptions) (f : CombFn),
        originalOptions.onCacheAdd = JsV.undef → newOptions.onCacheAdd = JsV.fn f →
        (mergeOptions originalOptions newOptions false).onCacheAdd = JsV.fn f) := by
  refine ⟨rfl, rfl, fun x => rfl, fun y => rfl, ?_, ?_, combine_single_fn, compose_single_fn,
    ?_, ?_, ?_⟩
  · intro l hlen h
    match l with
    | a :: b :: rest =>
      have ha : a.isFn = false := h a (by simp)
      have hb : b.isFn = false := h b (by simp)
      show ((b :: rest).foldl combineStep a) = JsV.undef
      rw [List.foldl_cons, combineStep_not_fn ha hb]
      exact foldl_combineStep_undef rest fun x hx => h x (by simp [hx])
  · intro l hlen h
    match l with
    | a :: b :: rest =>
      have ha : a.isFn = false := h a (by simp)
      have hb : b.isFn = false := h b (by simp)
      show ((b :: rest).foldl composeStep a) = JsV.undef
      rw [List.foldl_cons, composeStep_not_fn ha hb]
      exact foldl_composeStep_undef rest fun x hx => h x (by simp [hx])
  · intro originalOptions newOptions h1 h2
    simp [mergeOptions, combine, h1, h2, combineStep]
  · intro originalOptions newOptions f h1 h2
    simp [mergeOptions, combine, h1, h2, combineStep]
  · intro originalOptions newOptions f h1 h2
    simp [mergeOptions, combine, h1, h2, combineStep]

/-- Witness for C9 at concrete inputs: two non-function arguments give
`undefined`; `undefined` next to a single callback gives that callback
itself on either side. -/
theorem claim_C9_witness :
    combine [JsV.nonFn 1, JsV.undef] = JsV.undef
    ∧ combine [JsV.fn (CombFn.atom 0), JsV.undef] = JsV.fn (CombFn.atom 0)
    ∧ combine [JsV.undef, JsV.fn (CombFn.atom 0)] = JsV.fn (CombFn.atom 0) :=
  ⟨claim_C9_single_function_unwrapped.2.2.2.2.1 [JsV.nonFn 1, JsV.undef] (by decide)
      (by decide),
    claim_C9_single_function_unwrapped.2.2.2.2.2.2.1 [] [JsV.undef] (CombFn.atom 0)
      (by simp) (by decide),
    claim_C9_single_function_unwrapped.2.2.2.2.2.2.1 [JsV.undef] [] (CombFn.atom 0)
      (by decide) (by simp)⟩

/-- Claim C8: merging two options objects that both supply a lifecycle
callback of the same kind yields the wrapper that invokes the
most-recently-merged (new) callback first and the original second on the
same arguments; when both supply `transformArgs`, the merged transform
applies the new (rightmost) transform first and returns the original
(leftmost) transform applied to its result. -/
theorem claim_C8_mergeOptions_combines (originalOptions newOptions : MOptions)
    (a : List Nat) :
    (∀ f g : CombFn, originalOptions.onCacheAdd = JsV.fn f → newOptions.onCacheAdd = JsV.fn g →
      (mergeOptions originalOptions newOptions false).onCacheAdd = JsV.fn (CombFn.wrap g f)
      ∧ runC (CombFn.wrap g f) a = runC g a ++ runC f a)
    ∧ (∀ f g : CombFn, originalOptions.onCacheChange = JsV.fn f →
      newOptions.onCacheChange = JsV.fn g →
      (mergeOptions originalOptions newOptions false).onCacheChange = JsV.fn (CombFn.wrap g f)
      ∧ runC (CombFn.wrap g f) a = runC g a ++ runC f a)
    ∧ (∀ f g : CombFn, originalOptions.onCacheHit = JsV.fn f → newOptions.onCacheHit = JsV.fn g →
      (mergeOptions originalOptions newOptions false).onCacheHit = JsV.fn (CombFn.wrap g f)
      ∧ runC (CombFn.wrap g f) a = runC g a ++ runC f a)
    ∧ (∀ tf tg : CompFn, originalOptions.transformArgs = JsV.fn tf →
      newOptions.transformArgs = JsV.fn tg →
      (mergeOptions originalOptions newOptions false).transformArgs = JsV.fn (CompFn.wrap tf tg)
      ∧ runK (CompFn.wrap tf tg) a = runK tf (runK tg a)) := by
  refine ⟨fun f g h1 h2 => ⟨?_, rfl⟩, fun f g h1 h2 => ⟨?_, rfl⟩,
    fun f g h1 h2 => ⟨?_, rfl⟩, fun tf tg h1 h2 => ⟨?_, rfl⟩⟩
  · simp [mergeOptions, combine, h1, h2, combineStep]
  · simp [mergeOptions, combine, h1, h2, combineStep]
  · simp [mergeOptions, combine, h1, h2, combineStep]
  · simp [mergeOptions, compose, h1, h2, composeStep]

/-- Witness for C8 at concrete options: the merged `onCacheAdd` is the
wrapper firing the new atom 3 before the original atom 0 on the same
arguments, and the merged `transformArgs` applies the new transform first
and feeds its result to the original. -/
theorem claim_C8_witness :
    (mergeOptions origSampleMOptions newSampleMOptions false).onCacheAdd
        = JsV.fn (CombFn.wrap (CombFn.atom 3) (CombFn.atom 0))
    ∧ runC (CombFn.wrap (CombFn.atom 3) (CombFn.atom 0)) [9]
        = runC (CombFn.atom 3) [9] ++ runC (CombFn.atom 0) [9]
    ∧ (mergeOptions origSampleMOptions newSampleMOptions false).transformArgs
        = JsV.fn (CompFn.wrap (CompFn.atom fun l => 0 :: l) (CompFn.atom fun l => 1 :: l))
    ∧ runK (CompFn.wrap (CompFn.atom fun l => 0 :: l) (CompFn.atom fun l => 1 :: l)) [9]
        = runK (CompFn.atom fun l => 0 :: l) (runK (CompFn.atom fun l => 1 :: l) [9]) :=
  ⟨((claim_C8_mergeOptions_combines origSampleMOptions newSampleMOptions [9]).1
      (CombFn.atom 0) (CombFn.atom 3) rfl rfl).1,
    ((claim_C8_mergeOptions_combines origSampleMOptions newSampleMOptions [9]).1
      (CombFn.atom 0) (CombFn.atom 3) rfl rfl).2,
    ((claim_C8_mergeOptions_combines origSampleMOptions newSampleMOptions [9]).2.2.2
      (CompFn.atom fun l => 0 :: l) (CompFn.atom fun l => 1 :: l) rfl rfl).1,
    ((claim_C8_mergeOptions_combines origSampleMOptions newSampleMOptions [9]).2.2.2
      (CompFn.atom fun l => 0 :: l) (CompFn.atom fun l => 1 :: l) rfl rfl).2⟩

theorem add_hit_noop (opts : Options) (selfRef : Nat) (m : MoizedState)
    (key : List JSVal) (value : JSVal)
    (h : createFindKeyIndex opts.isEqual opts.isMatchingKey m.cache.keys
      (savedKeyOf opts key) ≠ -1) :
    Moized.add opts selfRef m key value = { state := m, events := [], ret := none } := by
  simp [Moized.add, h]

theorem add_miss_evict_eq (opts : Options) (selfRef : Nat) (m : MoizedState)
    (key : List JSVal) (value : JSVal)
    (h : createFindKeyIndex opts.isEqual opts.isMatchingKey m.cache.keys
      (savedKeyOf opts key) = -1)
    (hc : atCapacity opts m.cache = true) :
    Moized.add opts selfRef m key value =
      { state := { cache := { keys := savedKeyOf opts key :: m.cache.keys.dropLast
                              values := value :: m.cache.values.dropLast }
                   expirations := m.expirations }
        events := [Event.cacheAdd { keys := savedKeyOf opts key :: m.cache.keys.dropLast
                                    values := value :: m.cache.values.dropLast } opts selfRef,
                   Event.cacheChange { keys := savedKeyOf opts key :: m.cache.keys.dropLast
                                       values := value :: m.cache.values.dropLast } opts selfRef]
        ret := none } := by
  simp [Moized.add, h, hc]

theorem add_miss_room_eq (opts : Options) (selfRef : Nat) (m : MoizedState)
    (key : List JSVal) (value : JSVal)
    (h : createFindKeyIndex opts.isEqual opts.isMatchingKey m.cache.keys
      (savedKeyOf opts key) = -1)
    (hc : atCapacity opts m.cache = false) :
    Moized.add opts selfRef m key value =
      { state := { cache := { keys := savedKeyOf opts key :: m.cache.keys
                              values := value :: m.cache.values }
                   expirations := m.expirations }
        events := [Event.cacheAdd { keys := savedKeyOf opts key :: m.cache.keys
                                    values := value :: m.cache.values } opts selfRef,
                   Event.cacheChange { keys := savedKeyOf opts key :: m.cache.keys
                                       values := value :: m.cache.values } opts selfRef]
        ret := none } := by
  simp [Moized.add, h, hc]

/-- Claim C7: an `add` whose transformed key misses every stored key fires
`onCacheAdd` then `onCacheChange`, each exactly once and each receiving the
resulting cache, the options object and the facade reference; an `add`
whose key matches a stored key fires neither and leaves the store
unchanged. -/
theorem claim_C7_add_callback_cardinality (opts : Options) (selfRef : Nat) (m : MoizedState)
    (key : List JSVal) (value : JSVal) :
    (createFindKeyIndex opts.isEqual opts.isMatchingKey m.cache.keys
        (savedKeyOf opts key) = -1 →
      (Moized.add opts selfRef m key value).events =
        [Event.cacheAdd (Moized.add opts selfRef m key value).state.cache opts selfRef,
         Event.cacheChange (Moized.add opts selfRef m key value).state.cache opts selfRef])
    ∧ (createFindKeyIndex opts.isEqual opts.isMatchingKey m.cache.keys
        (savedKeyOf opts key) ≠ -1 →
      (Moized.add opts selfRef m key value).state = m
      ∧ (Moized.add opts selfRef m key value).events = []) := by
  constructor
  · intro h
    by_cases hc : atCapacity opts m.cache = true
    · rw [add_miss_evict_eq opts selfRef m key value h hc]
    · rw [add_miss_room_eq opts selfRef m key value h (by simpa using hc)]
  · intro h
    rw [add_hit_noop opts selfRef m key value h]
    exact ⟨rfl, rfl⟩

/-- Witness for C7 at concrete inputs: adding a fresh key to an empty cache
fires `onCacheAdd` then `onCacheChange` with the resulting cache, and
re-adding the now-stored key fires nothing and changes nothing. -/
theorem claim_C7_witness :
    (Moized.add sampleOptions 0 { cache := { keys := [], values := [] }, expirations := [] }
        [JSVal.str "k"] (JSVal.num 1)).events =
      [Event.cacheAdd { keys := [[JSVal.str "k"]], values := [JSVal.num 1] } sampleOptions 0,
       Event.cacheChange { keys := [[JSVal.str "k"]], values := [JSVal.num 1] } sampleOptions 0]
    ∧ (Moized.add sampleOptions 0
        { cache := { keys := [[JSVal.str "k"]], values := [JSVal.num 1] }, expirations := [] }
        [JSVal.str "k"] (JSVal.num 1)).state =
      { cache := { keys := [[JSVal.str "k"]], values := [JSVal.num 1] }, expirations := [] }
    ∧ (Moized.add sampleOptions 0
        { cache := { keys := [[JSVal.str "k"]], values := [JSVal.num 1] }, expirations := [] }
        [JSVal.str "k"] (JSVal.num 1)).events = [] :=
  ⟨(claim_C7_add_callback_cardinality sampleOptions 0
      { cache := { keys := [], values := [] }, expirations := [] }
      [JSVal.str "k"] (JSVal.num 1)).1 (by decide),
    ((claim_C7_add_callback_cardinality sampleOptions 0
      { cache := { keys := [[JSVal.str "k"]], values := [JSVal.num 1] }, expirations := [] }
      [JSVal.str "k"] (JSVal.num 1)).2 (by decide)).1,
    ((claim_C7_add_callback_cardinality sampleOptions 0
      { cache := { keys := [[JSVal.str "k"]], values := [JSVal.num 1] }, expirations := [] }
      [JSVal.str "k"] (JSVal.num 1)).2 (by decide)).2⟩

/-- Claim C1 (update modelled from the spec, the method being absent from
src/unnamed/part_000): when the Key Matcher locates the key at index `n`,
`update` moves that stored entry to the front of the ordering, overwrites
its value with the new value, fires `onCacheChange` exactly once, and leaves
the expirations untouched; when no stored key matches, the state is
unchanged and no callback fires. -/
theorem claim_C1_update_promotes_and_overwrites (opts : Options) (selfRef : Nat)
    (m : MoizedState) (key : List JSVal) (newValue : JSVal) :
    (createFindKeyIndex opts.isEqual opts.isMatchingKey m.cache.keys
        (savedKeyOf opts key) = -1 →
      Moized.update opts selfRef m key newValue = (m, []))
    ∧ ∀ n : Nat,
      createFindKeyIndex opts.isEqual opts.isMatchingKey m.cache.keys
          (savedKeyOf opts key) = (n : Int) →
      Moized.update opts selfRef m key newValue =
        ({ cache := { keys := m.cache.keys.getD n [] :: m.cache.keys.eraseIdx n
                      values := newValue :: m.cache.values.eraseIdx n }
           expirations := m.expirations },
         [Event.cacheChange { keys := m.cache.keys.getD n [] :: m.cache.keys.eraseIdx n
                              values := newValue :: m.cache.values.eraseIdx n } opts selfRef]) := by
  constructor
  · intro h
    simp [Moized.update, h]
  · intro n h
    have hne : ¬((n : Int) = -1) := by omega
    simp [Moized.update, h, hne]

/-- Witness for C1 at concrete inputs: updating the key stored at index 1
moves it to the front with the new value and fires one `onCacheChange`,
while updating a missing key is a no-op with no callback. -/
theorem claim_C1_witness :
    Moized.update sampleOptions 0
        { cache := { keys := [[JSVal.str "a"], [JSVal.str "k"]]
                     values := [JSVal.num 1, JSVal.num 2] }
          expirations := [] }
        [JSVal.str "k"] (JSVal.num 9) =
      ({ cache := { keys := [[JSVal.str "k"], [JSVal.str "a"]]
                    values := [JSVal.num 9, JSVal.num 1] }
         expirations := [] },
       [Event.cacheChange { keys := [[JSVal.str "k"], [JSVal.str "a"]]
                            values := [JSVal.num 9, JSVal.num 1] } sampleOptions 0])
    ∧ Moized.update sampleOptions 0
        { cache := { keys := [[JSVal.str "a"]], values := [JSVal.num 1] }, expirations := [] }
        [JSVal.str "missing"] (JSVal.num 9) =
      ({ cache := { keys := [[JSVal.str "a"]], values := [JSVal.num 1] }, expirations := [] },
       []) :=
  ⟨(claim_C1_update_promotes_and_overwrites sampleOptions 0
      { cache := { keys := [[JSVal.str "a"], [JSVal.str "k"]]
                   values := [JSVal.num 1, JSVal.num 2] }
        expirations := [] }
      [JSVal.str "k"] (JSVal.num 9)).2 1 (by decide),
    (claim_C1_update_promotes_and_overwrites sampleOptions 0
      { cache := { keys := [[JSVal.str "a"]], values := [JSVal.num 1] }, expirations := [] }
      [JSVal.str "missing"] (JSVal.num 9)).1 (by decide)⟩

/-- Claim C2, evaluated on the source `remove` (src/unnamed/part_000 lines
69-78) at the failing input: removing the only key, whose expiration record
is armed, empties the cache and fires `onCacheChange`, but the expiration
record is still in the active list untouched — no timer is cleared, so the
armed timeout later fires, contrary to the claim and to the repository's own
test (test/instance.js line 701, which expects the expiration method never
to be called after `remove`). -/
theorem claim_C2_remove_keeps_expiration_armed :
    Moized.remove sampleOptions 0
        { cache := { keys := [[JSVal.str "key"]], values := [JSVal.str "value"] }
          expirations := [{ key := { ref := 7, content := [JSVal.str "key"] }, timeoutId := 99 }] }
        [JSVal.str "key"]
      = ({ cache := { keys := [], values := [] }
           expirations := [{ key := { ref := 7, content := [JSVal.str "key"] },
                             timeoutId := 99 }] },
         [Event.cacheChange { keys := [], values := [] } sampleOptions 0]) := by
  rfl

/-- Counterexample to claim C3 as stated, at a concrete input where `add`
evicts: with `maxSize = 1`, a one-entry cache whose entry has an armed
expiration record, adding a fresh key does evict the old entry and insert
the new one — but the evicted entry's expiration record is still present,
not disarmed, and `add` returns `undefined`, not whether insertion
occurred. -/
theorem claim_C3_counterexample :
    (Moized.add (boundedOptions 1) 0 evictSample [JSVal.str "b"] (JSVal.num 3)).state.cache.keys
        = [[JSVal.str "b"]]
    ∧ (Moized.add (boundedOptions 1) 0 evictSample [JSVal.str "b"]
        (JSVal.num 3)).state.expirations
        = [{ key := { ref := 5, content := [JSVal.str "a"] }, timeoutId := 7 }]
    ∧ (Moized.add (boundedOptions 1) 0 evictSample [JSVal.str "b"] (JSVal.num 3)).ret = none
    ∧ (Moized.add (boundedOptions 1) 0 evictSample [JSVal.str "b"] (JSVal.num 3)).ret
        ≠ some true := by
  refine ⟨rfl, rfl, rfl, ?_⟩
  decide

/-- Claim C3 as amended: when no stored key matches and the cache is at or
above `maxSize`, `add` pops the last key/value pair (leaving any expiration
record of the evicted entry untouched) and inserts the new entry at the
front; when below capacity it only inserts at the front; in both cases it
returns `undefined` rather than an insertion flag; when a stored key
matches, `add` is a no-op. -/
theorem claim_C3_add_evicts_then_inserts (opts : Options) (selfRef : Nat) (m : MoizedState)
    (key : List JSVal) (value : JSVal) :
    (createFindKeyIndex opts.isEqual opts.isMatchingKey m.cache.keys
        (savedKeyOf opts key) ≠ -1 →
      Moized.add opts selfRef m key value = { state := m, events := [], ret := none })
    ∧ (createFindKeyIndex opts.isEqual opts.isMatchingKey m.cache.keys
        (savedKeyOf opts key) = -1 → atCapacity opts m.cache = true →
      Moized.add opts selfRef m key value =
        { state := { cache := { keys := savedKeyOf opts key :: m.cache.keys.dropLast
                                values := value :: m.cache.values.dropLast }
                     expirations := m.expirations }
          events := [Event.cacheAdd { keys := savedKeyOf opts key :: m.cache.keys.dropLast
                                      values := value :: m.cache.values.dropLast } opts selfRef,
                     Event.cacheChange { keys := savedKeyOf opts key :: m.cache.keys.dropLast
                                         values := value :: m.cache.values.dropLast }
                       opts selfRef]
          ret := none })
    ∧ (createFindKeyIndex opts.isEqual opts.isMatchingKey m.cache.keys
        (savedKeyOf opts key) = -1 → atCapacity opts m.cache = false →
      Moized.add opts selfRef m key value =
        { state := { cache := { keys := savedKeyOf opts key :: m.cache.keys
                                values := value :: m.cache.values }
                     expirations := m.expirations }
          events := [Event.cacheAdd { keys := savedKeyOf opts key :: m.cache.keys
                                      values := value :: m.cache.values } opts selfRef,
                     Event.cacheChange { keys := savedKeyOf opts key :: m.cache.keys
                                         values := value :: m.cache.values } opts selfRef]
          ret := none }) :=
  ⟨add_hit_noop opts selfRef m key value,
    add_miss_evict_eq opts selfRef m key value,
    add_miss_room_eq opts selfRef m key value⟩

/-- Witness for C3 at the concrete eviction input. -/
theorem claim_C3_witness :
    Moized.add (boundedOptions 1) 0 evictSample [JSVal.str "b"] (JSVal.num 3) =
      { state := { cache := { keys := [[JSVal.str "b"]], values := [JSVal.num 3] }
                   expirations := [{ key := { ref := 5, content := [JSVal.str "a"] },
                                     timeoutId := 7 }] }
        events := [Event.cacheAdd { keys := [[JSVal.str "b"]], values := [JSVal.num 3] }
                     (boundedOptions 1) 0,
                   Event.cacheChange { keys := [[JSVal.str "b"]], values := [JSVal.num 3] }
                     (boundedOptions 1) 0]
        ret := none } :=
  (claim_C3_add_evicts_then_inserts (boundedOptions 1) 0 evictSample [JSVal.str "b"]
    (JSVal.num 3)).2.1 (by decide) (by decide)

theorem addAll_cons (opts : Options) (selfRef : Nat) (m : MoizedState)
    (p : List JSVal × JSVal) (rest : List (List JSVal × JSVal)) :
    Moized.addAll opts selfRef m (p :: rest) =
      Moized.addAll opts selfRef (Moized.add opts selfRef m p.1 p.2).state rest := rfl

theorem addAll_unbounded_keys (opts : Options) (h : opts.maxSize = none) (selfRef : Nat) :
    ∀ (pairs : List (List JSVal × JSVal)) (m : MoizedState),
      (∀ q ∈ pairs, ∀ k ∈ m.cache.keys, keyMisses opts k (savedKeyOf opts q.1)) →
      pairs.Pairwise (fun p q => keyMisses opts (savedKeyOf opts p.1) (savedKeyOf opts q.1)) →
      (Moized.addAll opts selfRef m pairs).cache.keys =
        (pairs.map fun p => savedKeyOf opts p.1).reverse ++ m.cache.keys := by
  intro pairs
  induction pairs with
  | nil => intro m _ _; simp [Moized.addAll]
  | cons p rest ih =>
    intro m hfresh hpw
    have hmiss : createFindKeyIndex opts.isEqual opts.isMatchingKey m.cache.keys
        (savedKeyOf opts p.1) = -1 := by
      rw [createFindKeyIndex_eq_neg_one_iff]
      intro k hk
      exact hfresh p (List.mem_cons_self p rest) k hk
    have hcap : atCapacity opts m.cache = false := by simp [atCapacity, h]
    rw [addAll_cons, add_miss_room_eq opts selfRef m p.1 p.2 hmiss hcap]
    have hpw' := List.pairwise_cons.mp hpw
    rw [ih _ ?_ hpw'.2]
    · simp
    · intro q hq k hk
      rcases List.mem_cons.mp hk with rfl | hmem
      · exact hpw'.1 q hq
      · exact hfresh q (List.mem_cons_of_mem p hq) k hmem

theorem add_size_le (opts : Options) (selfRef : Nat) (m : MoizedState)
    (key : List JSVal) (value : JSVal) (N : Nat) (h : opts.maxSize = some N) (hN : 1 ≤ N)
    (hm : m.cache.size ≤ N) :
    (Moized.add opts selfRef m key value).state.cache.size ≤ N := by
  by_cases hfound : createFindKeyIndex opts.isEqual opts.isMatchingKey m.cache.keys
      (savedKeyOf opts key) = -1
  · by_cases hc : atCapacity opts m.cache = true
    · have hge : N ≤ m.cache.keys.length := by
        have := hc
        simp [atCapacity, h, Cache.size] at this
        exact this
      rw [add_miss_evict_eq opts selfRef m key value hfound hc]
      simp only [Cache.size, List.length_cons, List.length_dropLast]
      simp only [Cache.size] at hm
      omega
    · have hlt : m.cache.keys.length < N := by
        have := hc
        simp [atCapacity, h, Cache.size] at this
        exact this
      rw [add_miss_room_eq opts selfRef m key value hfound (by simpa using hc)]
      simp only [Cache.size, List.length_cons]
      omega
  · rw [add_hit_noop opts selfRef m key value hfound]
    exact hm

theorem addAll_size_le (opts : Options) (selfRef : Nat) (N : Nat)
    (h : opts.maxSize = some N) (hN : 1 ≤ N) :
    ∀ (pairs : List (List JSVal × JSVal)) (m : MoizedState), m.cache.size ≤ N →
      (Moized.addAll opts selfRef m pairs).cache.size ≤ N := by
  intro pairs
  induction pairs with
  | nil => intro m hm; exact hm
  | cons p rest ih =>
    intro m hm
    rw [addAll_cons]
    exact ih _ (add_size_le opts selfRef m p.1 p.2 N h hN hm)

theorem add_size_le_one_of_zero (opts : Options) (selfRef : Nat) (m : MoizedState)
    (key : List JSVal) (value : JSVal) (h : opts.maxSize = some 0)
    (hm : m.cache.size ≤ 1) :
    (Moized.add opts selfRef m key value).state.cache.size ≤ 1 := by
  by_cases hfound : createFindKeyIndex opts.isEqual opts.isMatchingKey m.cache.keys
      (savedKeyOf opts key) = -1
  · have hc : atCapacity opts m.cache = true := by simp [atCapacity, h]
    rw [add_miss_evict_eq opts selfRef m key value hfound hc]
    simp only [Cache.size, List.length_cons, List.length_dropLast]
    have := hm
    simp only [Cache.size] at this
    omega
  · rw [add_hit_noop opts selfRef m key value hfound]
    exact hm

theorem addAll_size_le_one_of_zero (opts : Options) (selfRef : Nat)
    (h : opts.maxSize = some 0) :
    ∀ (pairs : List (List JSVal × JSVal)) (m : MoizedState), m.cache.size ≤ 1 →
      (Moized.addAll opts selfRef m pairs).cache.size ≤ 1 := by
  intro pairs
  induction pairs with
  | nil => intro m hm; exact hm
  | cons p rest ih =>
    intro m hm
    rw [addAll_cons]
    exact ih _ (add_size_le_one_of_zero opts selfRef m p.1 p.2 h hm)

/-- Counterexample to claim C4 as stated: with `maxSize = 0` the eviction
guard `size >= maxSize` is always true, so the cache is not unbounded — two
adds of pairwise non-matching keys leave one entry, not two. -/
theorem claim_C4_counterexample :
    keyMisses (boundedOptions 0) [JSVal.str "a"] [JSVal.str "b"]
    ∧ (Moized.addAll (boundedOptions 0) 0
        { cache := { keys := [], values := [] }, expirations := [] }
        [([JSVal.str "a"], JSVal.num 1), ([JSVal.str "b"], JSVal.num 2)]).cache.size = 1
    ∧ (1 : Nat) ≠ 2 := by
  refine ⟨?_, rfl, ?_⟩
  · decide
  · decide

/-- Claim C4 as amended: only an unset `maxSize` makes the cache unbounded —
a sequence of adds of pairwise non-matching keys into an empty cache then
leaves exactly one entry per add; with `maxSize = 0` every inserting add
first pops the current last entry, so the size never exceeds 1. -/
theorem claim_C4_unbounded_only_when_unset :
    (∀ (opts : Options) (selfRef : Nat) (exps : List Expiration)
        (pairs : List (List JSVal × JSVal)), opts.maxSize = none →
      pairs.Pairwise (fun p q => keyMisses opts (savedKeyOf opts p.1) (savedKeyOf opts q.1)) →
      (Moized.addAll opts selfRef { cache := { keys := [], values := [] }, expirations := exps }
        pairs).cache.size = pairs.length)
    ∧ (∀ (opts : Options) (selfRef : Nat) (exps : List Expiration)
        (pairs : List (List JSVal × JSVal)), opts.maxSize = some 0 →
      (Moized.addAll opts selfRef { cache := { keys := [], values := [] }, expirations := exps }
        pairs).cache.size ≤ 1) := by
  constructor
  · intro opts selfRef exps pairs h hpw
    have hkeys := addAll_unbounded_keys opts h selfRef pairs
      { cache := { keys := [], values := [] }, expirations := exps }
      (by intro q hq k hk; simp at hk) hpw
    simp [Cache.size, hkeys]
  · intro opts selfRef exps pairs h
    exact addAll_size_le_one_of_zero opts selfRef h pairs _ (by simp [Cache.size])

/-- Witness for C4 at concrete inputs: with `maxSize` unset, two
non-matching adds leave two entries; with `maxSize = 0`, any adds leave at
most one. -/
theorem claim_C4_witness :
    (Moized.addAll sampleOptions 0 { cache := { keys := [], values := [] }, expirations := [] }
        [([JSVal.str "a"], JSVal.num 1), ([JSVal.str "b"], JSVal.num 2)]).cache.size = 2
    ∧ (Moized.addAll (boundedOptions 0) 0
        { cache := { keys := [], values := [] }, expirations := [] }
        [([JSVal.str "a"], JSVal.num 1), ([JSVal.str "b"], JSVal.num 2)]).cache.size ≤ 1 :=
  ⟨claim_C4_unbounded_only_when_unset.1 sampleOptions 0 []
      [([JSVal.str "a"], JSVal.num 1), ([JSVal.str "b"], JSVal.num 2)] rfl (by decide),
    claim_C4_unbounded_only_when_unset.2 (boundedOptions 0) 0 []
      [([JSVal.str "a"], JSVal.num 1), ([JSVal.str "b"], JSVal.num 2)] rfl⟩

/-- Claim C6: for every `maxSize = N` with `N ≥ 1`, the cache size never
exceeds `N` under any sequence of adds starting within the bound; every
eviction removes the entry at the back of the ordering; and concretely with
`maxSize = 2`, adding `["a"]`, `["b"]`, `["c"]` leaves the keys
`[["c"], ["b"]]` with `["a"]` evicted. -/
theorem claim_C6_bounded_size_lru :
    (∀ (opts : Options) (selfRef N : Nat) (pairs : List (List JSVal × JSVal)) (m : MoizedState),
      opts.maxSize = some N → 1 ≤ N → m.cache.size ≤ N →
      (Moized.addAll opts selfRef m pairs).cache.size ≤ N)
    ∧ (∀ (opts : Options) (selfRef : Nat) (m : MoizedState) (key : List JSVal) (value : JSVal),
      createFindKeyIndex opts.isEqual opts.isMatchingKey m.cache.keys
        (savedKeyOf opts key) = -1 →
      atCapacity opts m.cache = true →
      (Moized.add opts selfRef m key value).state.cache.keys =
        savedKeyOf opts key :: m.cache.keys.dropLast)
    ∧ (Moized.addAll (boundedOptions 2) 0
        { cache := { keys := [], values := [] }, expirations := [] }
        [([JSVal.str "a"], JSVal.num 1), ([JSVal.str "b"], JSVal.num 2),
         ([JSVal.str "c"], JSVal.num 3)]).cache.keys
      = [[JSVal.str "c"], [JSVal.str "b"]] := by
  refine ⟨?_, ?_, rfl⟩
  · intro opts selfRef N pairs m h hN hm
    exact addAll_size_le opts selfRef N h hN pairs m hm
  · intro opts selfRef m key value h hc
    rw [add_miss_evict_eq opts selfRef m key value h hc]

/-- Witness for C6 at the concrete scenario inputs. -/
theorem claim_C6_witness :
    (Moized.addAll (boundedOptions 2) 0
        { cache := { keys := [], values := [] }, expirations := [] }
        [([JSVal.str "a"], JSVal.num 1), ([JSVal.str "b"], JSVal.num 2),
         ([JSVal.str "c"], JSVal.num 3)]).cache.size ≤ 2 :=
  claim_C6_bounded_size_lru.1 (boundedOptions 2) 0 2
    [([JSVal.str "a"], JSVal.num 1), ([JSVal.str "b"], JSVal.num 2),
     ([JSVal.str "c"], JSVal.num 3)]
    { cache := { keys := [], values := [] }, expirations := [] } rfl (by decide) (by decide)
